import Mathlib

/-
Verification of the multi-class blob-classification notebook.

The notebook builds a 5-layer linear model over 2-dimensional blob data,
trains it with full-batch SGD on a cross-entropy loss, and evaluates it
with softmax/argmax predictions and an exact-match accuracy metric.
Below, the hyperparameter constants, the model, the softmax/argmax
prediction path, the cross-entropy loss, and the training loop are
embedded as Lean definitions over the reals, and the spec-level
properties are proved about them.
-/

namespace MultiClass

/-- Hyperparameter from the notebook: NUM_SAMPLES = 4000. -/
def NUM_SAMPLES : ℕ := 4000

/-- Hyperparameter from the notebook: NUM_CLASSES = 10. -/
def NUM_CLASSES : ℕ := 10

/-- Hyperparameter from the notebook: NUM_FEATURES = 2. -/
def NUM_FEATURES : ℕ := 2

/-- Hyperparameter from the notebook: NUM_NODES = 4 (passed to BlobModel as hidden_units). -/
def NUM_NODES : ℕ := 4

/-- Hyperparameter from the notebook: RANDOM_SEED = 999. -/
def RANDOM_SEED : ℕ := 999

/-- Hyperparameter from the notebook: CLUSTER_STD = 1.0. -/
noncomputable def CLUSTER_STD : ℝ := 1.0

/-- Hyperparameter from the notebook: LEARNING_RATE = 0.05, used as lr of torch.optim.SGD. -/
noncomputable def LEARNING_RATE : ℝ := 0.05

/-- Hyperparameter from the notebook: NUM_EPOCHS = 150000, the iteration count of the loop. -/
def NUM_EPOCHS : ℕ := 150000

/-- Fraction passed to train_test_split in the notebook: test_size = 0.2. -/
def TEST_SIZE : ℚ := 0.2

/-- Default hidden_units value in the BlobModel constructor signature (the
instantiation overrides it with NUM_NODES). -/
def DEFAULT_HIDDEN_UNITS : ℕ := 8

/-- One nn.Linear layer: a weight matrix and a bias vector over the reals. -/
structure LinearLayer (inF outF : ℕ) where
  weight : Matrix (Fin outF) (Fin inF) ℝ
  bias : Fin outF → ℝ

/-- The affine map computed by an nn.Linear layer: x maps to W x + b. -/
noncomputable def LinearLayer.apply {a b : ℕ} (l : LinearLayer a b) (x : Fin a → ℝ) :
    Fin b → ℝ :=
  l.weight.mulVec x + l.bias

/-- BlobModel.linear_layer_stack: five nn.Linear layers with the dimensions
used in the notebook source (input_features to hidden_units, three
hidden-to-hidden layers, hidden_units to output_features); the commented-out
nn.ReLU activations are absent, so the stack is purely affine. -/
structure BlobModel (inF outF hidden : ℕ) where
  l1 : LinearLayer inF hidden
  l2 : LinearLayer hidden hidden
  l3 : LinearLayer hidden hidden
  l4 : LinearLayer hidden hidden
  l5 : LinearLayer hidden outF

/-- BlobModel.forward: the sequential composition of the five linear layers,
with no nonlinearity in between. -/
noncomputable def BlobModel.forward {a b h : ℕ} (m : BlobModel a b h) (x : Fin a → ℝ) :
    Fin b → ℝ :=
  m.l5.apply (m.l4.apply (m.l3.apply (m.l2.apply (m.l1.apply x))))

/-- The (in, out) dimension pairs of the five layers built by the BlobModel
constructor, in stack order. -/
def blobModelLayerShapes (inF outF hidden : ℕ) : List (ℕ × ℕ) :=
  [(inF, hidden), (hidden, hidden), (hidden, hidden), (hidden, hidden), (hidden, outF)]

/-- The layer shapes of model_4, instantiated exactly as in the notebook:
BlobModel(input_features=NUM_FEATURES, output_features=NUM_CLASSES,
hidden_units=NUM_NODES). -/
def model4LayerShapes : List (ℕ × ℕ) :=
  blobModelLayerShapes NUM_FEATURES NUM_CLASSES NUM_NODES

/-- torch.softmax along the class dimension: entry i of softmax(z) is
exp(z i) divided by the sum of exp(z j) over all classes j. -/
noncomputable def softmax {K : ℕ} (z : Fin K → ℝ) (i : Fin K) : ℝ :=
  Real.exp (z i) / ∑ j, Real.exp (z j)

/-- torch.argmax on a vector: the index of the first maximal entry,
computed by a left fold that replaces the current best index only on a
strictly larger value (so ties keep the lower index). -/
noncomputable def argmaxFin {n : ℕ} (z : Fin (n + 1) → ℝ) : Fin (n + 1) :=
  (List.finRange (n + 1)).foldl (fun b i => if z b < z i then i else b) 0

/-- The notebook's prediction path for one sample:
y_preds = torch.softmax(y_logits, dim=1).argmax(dim=1). -/
noncomputable def predLabel {n : ℕ} (logits : Fin (n + 1) → ℝ) : Fin (n + 1) :=
  argmaxFin (softmax logits)

/-- The per-sample term of nn.CrossEntropyLoss: minus the log of the softmax
probability assigned to the true class. -/
noncomputable def ceTerm {K : ℕ} (z : Fin K → ℝ) (y : Fin K) : ℝ :=
  -Real.log (softmax z y)

/-- nn.CrossEntropyLoss with the default mean reduction: the mean over the
batch of the per-sample negative log-probability of the true class. -/
noncomputable def crossEntropyLoss {K : ℕ} (logits : List (Fin K → ℝ))
    (targets : List (Fin K)) : ℝ :=
  (((logits.zip targets).map fun py => ceTerm py.1 py.2).sum) / (logits.zip targets).length

/-- One SGD parameter update on a single layer: each parameter tensor is
decremented by the learning rate times its gradient. -/
noncomputable def LinearLayer.sgdUpdate {a b : ℕ} (lr : ℝ) (p g : LinearLayer a b) :
    LinearLayer a b :=
  ⟨p.weight - lr • g.weight, p.bias - lr • g.bias⟩

/-- optimizer.step() for torch.optim.SGD over all five layers of the model:
every weight and bias is decremented by lr times its gradient. -/
noncomputable def BlobModel.sgdUpdate {a b h : ℕ} (lr : ℝ) (p g : BlobModel a b h) :
    BlobModel a b h :=
  ⟨p.l1.sgdUpdate lr g.l1, p.l2.sgdUpdate lr g.l2, p.l3.sgdUpdate lr g.l3,
    p.l4.sgdUpdate lr g.l4, p.l5.sgdUpdate lr g.l5⟩

/-- One line of the loop's periodic print: the epoch number with the train
loss and the test loss reported at that epoch. -/
structure Report where
  epoch : ℕ
  trainLoss : ℝ
  testLoss : ℝ

/-- The parameter type of model_4: a BlobModel with the notebook's
NUM_FEATURES, NUM_CLASSES and NUM_NODES dimensions. -/
abbrev Model4Params : Type := BlobModel NUM_FEATURES NUM_CLASSES NUM_NODES

/-- The body of the notebook's training loop, iterated from epoch e for n more
iterations. Each iteration: forward pass of the model on the whole training
set, cross-entropy train loss, gradient (reverse-mode autodiff, taken here as
an opaque function grad of the current parameters), SGD parameter update;
then, when the epoch number is a multiple of 100, an evaluation pass on the
held-out test set that computes the test loss and records a report, without
touching the parameters. -/
noncomputable def trainLoopFrom (grad : Model4Params → Model4Params)
    (Xtrain : List (Fin NUM_FEATURES → ℝ)) (ytrain : List (Fin NUM_CLASSES))
    (Xtest : List (Fin NUM_FEATURES → ℝ)) (ytest : List (Fin NUM_CLASSES)) :
    ℕ → ℕ → Model4Params → Model4Params × List Report
  | _, 0, p => (p, [])
  | e, n + 1, p =>
    let loss := crossEntropyLoss (Xtrain.map p.forward) ytrain
    let p1 := p.sgdUpdate LEARNING_RATE (grad p)
    let rest := trainLoopFrom grad Xtrain ytrain Xtest ytest (e + 1) n p1
    if e % 100 = 0 then
      (rest.1, ⟨e, loss, crossEntropyLoss (Xtest.map p1.forward) ytest⟩ :: rest.2)
    else
      rest

/-- The notebook's training run: the loop body executed for epoch in
range(NUM_EPOCHS), starting from the initial parameters p0; returns the final
parameters and the list of periodic evaluation reports. -/
noncomputable def trainRun (grad : Model4Params → Model4Params)
    (Xtrain : List (Fin NUM_FEATURES → ℝ)) (ytrain : List (Fin NUM_CLASSES))
    (Xtest : List (Fin NUM_FEATURES → ℝ)) (ytest : List (Fin NUM_CLASSES))
    (p0 : Model4Params) : Model4Params × List Report :=
  trainLoopFrom grad Xtrain ytrain Xtest ytest 0 NUM_EPOCHS p0

/-- Modelled from the spec: sklearn's train_test_split (not part of this
repository's sources) shuffles the sample indices into a permutation and
returns the first n_test of them as the test subset. -/
def testIndices (perm : List ℕ) (nTest : ℕ) : List ℕ :=
  perm.take nTest

/-- Modelled from the spec: the remaining indices of the shuffled permutation
form the train subset. -/
def trainIndices (perm : List ℕ) (nTest : ℕ) : List ℕ :=
  perm.drop nTest

/-- Modelled from the spec: sklearn's split-size rule for a fractional
test_size — n_test is the ceiling of test_size times n, and the train subset
gets the remaining n - n_test samples. Returns (n_train, n_test). -/
def splitSizes (n : ℕ) (testFrac : ℚ) : ℕ × ℕ :=
  let nTest := (⌈testFrac * (n : ℚ)⌉).toNat
  (n - nTest, nTest)

/-- The number of positions at which two label lists agree, over their
aligned common prefix. -/
def matchCount (a b : List ℕ) : ℕ :=
  (a.zip b).countP fun q => q.1 == q.2

/-- Modelled from the spec: torchmetrics.Accuracy on integer label
predictions — the fraction of samples whose predicted label equals the
target label. -/
def tmAccuracy (preds target : List ℕ) : ℚ :=
  (matchCount preds target : ℚ) / ((preds.zip target).length : ℚ)

/-- Modelled from the spec: sklearn.metrics.accuracy_score(y_true, y_pred) —
the fraction of positions where the two label lists agree exactly. -/
def skAccuracyScore (yTrue yPred : List ℕ) : ℚ :=
  (matchCount yTrue yPred : ℚ) / ((yTrue.zip yPred).length : ℚ)

/-- C1 counterexample: the notebook instantiates model_4 with
hidden_units = NUM_NODES = 4, so the layer shapes are not the claimed
(2,8),(8,8),(8,8),(8,8),(8,10). -/
theorem model4_shapes_ne_eight :
    model4LayerShapes ≠ [(2, 8), (8, 8), (8, 8), (8, 8), (8, 10)] := by
  decide

/-- C1 amended: the model is a stack of 5 affine layers with shapes
(2,4),(4,4),(4,4),(4,4),(4,10): every hidden layer has NUM_NODES = 4 hidden
units (the BlobModel constructor default is 8, but the instantiation
overrides it with NUM_NODES), and the output layer maps to
K = NUM_CLASSES = 10 classes. -/
theorem model4_shapes_spec :
    model4LayerShapes = [(2, 4), (4, 4), (4, 4), (4, 4), (4, 10)] ∧
      NUM_NODES = 4 ∧ NUM_CLASSES = 10 ∧ DEFAULT_HIDDEN_UNITS = 8 := by
  decide

/-- C6: with the notebook's constants (seed 999, N = 4000, K = 10,
cluster_std = 1.0), the split with test_size = 0.2 yields exactly 3200
training samples and exactly 800 test samples. -/
theorem split_sizes_end_to_end :
    splitSizes NUM_SAMPLES TEST_SIZE = (3200, 800) ∧ NUM_SAMPLES = 4000 ∧
      NUM_CLASSES = 10 ∧ RANDOM_SEED = 999 ∧ CLUSTER_STD = 1 := by
  have hceil : (⌈TEST_SIZE * (NUM_SAMPLES : ℚ)⌉).toNat = 800 := by
    have h8 : TEST_SIZE * (NUM_SAMPLES : ℚ) = ((800 : ℤ) : ℚ) := by
      norm_num [TEST_SIZE, NUM_SAMPLES]
    rw [h8, Int.ceil_intCast]
    rfl
  refine ⟨?_, rfl, rfl, rfl, by norm_num [CLUSTER_STD]⟩
  show (NUM_SAMPLES - (⌈TEST_SIZE * (NUM_SAMPLES : ℚ)⌉).toNat,
    (⌈TEST_SIZE * (NUM_SAMPLES : ℚ)⌉).toNat) = (3200, 800)
  rw [hceil]
  rfl

/-- C5: for any shuffle permutation of the n sample indices, the test subset
(the first nTest shuffled indices) and the train subset (the rest) are
disjoint, and together they contain exactly the original sample indices. -/
theorem train_test_split_partition :
    ∀ (n nTest : ℕ) (perm : List ℕ), perm.Perm (List.range n) →
      (∀ i, i ∈ testIndices perm nTest → i ∉ trainIndices perm nTest) ∧
      (∀ i, i < n ↔ (i ∈ testIndices perm nTest ∨ i ∈ trainIndices perm nTest)) := by
  intro n nTest perm hp
  have hnd : perm.Nodup := hp.nodup_iff.mpr (List.nodup_range n)
  have hsplit : testIndices perm nTest ++ trainIndices perm nTest = perm :=
    List.take_append_drop nTest perm
  constructor
  · intro i hte htr
    rw [← hsplit] at hnd
    exact (List.nodup_append.mp hnd).2.2 hte htr
  · intro i
    have h1 : i ∈ perm ↔ i ∈ testIndices perm nTest ∨ i ∈ trainIndices perm nTest := by
      conv_lhs => rw [← hsplit]
      exact List.mem_append
    exact List.mem_range.symm.trans (hp.mem_iff.symm.trans h1)

/-- Witness for C5 at a concrete permutation of three sample indices. -/
theorem train_test_split_partition_witness :
    ([1, 0, 2] : List ℕ).Perm (List.range 3) ∧
      ((∀ i, i ∈ testIndices [1, 0, 2] 1 → i ∉ trainIndices [1, 0, 2] 1) ∧
        (∀ i, i < 3 ↔ (i ∈ testIndices [1, 0, 2] 1 ∨ i ∈ trainIndices [1, 0, 2] 1))) :=
  ⟨by decide, train_test_split_partition 3 1 [1, 0, 2] (by decide)⟩

theorem natBeqComm (a b : ℕ) : (a == b) = (b == a) := by
  by_cases h : a = b
  · subst h; rfl
  · rw [beq_eq_false_iff_ne.mpr h, beq_eq_false_iff_ne.mpr (Ne.symm h)]

theorem matchCount_comm (a b : List ℕ) : matchCount a b = matchCount b a := by
  unfold matchCount
  rw [← List.zip_swap a b, List.countP_map]
  congr 1
  funext q
  exact natBeqComm q.1 q.2

/-- C10: the metric value is the exact-match fraction, the exact-match
fraction is symmetric in its two arguments, and therefore the torchmetrics
accuracy and the sklearn accuracy_score (called by the notebook with the
predictions in the y_true position) agree on the same predictions and
labels. -/
theorem accuracy_metrics_agree :
    ∀ (preds target : List ℕ),
      tmAccuracy preds target =
        (matchCount preds target : ℚ) / ((preds.zip target).length : ℚ) ∧
      tmAccuracy preds target = skAccuracyScore target preds ∧
      tmAccuracy preds target = skAccuracyScore preds target := by
  intro preds target
  refine ⟨rfl, ?_, rfl⟩
  unfold tmAccuracy skAccuracyScore
  rw [matchCount_comm preds target, List.length_zip, List.length_zip, Nat.min_comm]

theorem sumExp_pos {K : ℕ} (i : Fin K) (z : Fin K → ℝ) : 0 < ∑ j, Real.exp (z j) :=
  Finset.sum_pos (fun j _ => Real.exp_pos (z j)) ⟨i, Finset.mem_univ i⟩

theorem softmax_nonneg {K : ℕ} (z : Fin K → ℝ) (i : Fin K) : 0 ≤ softmax z i :=
  div_nonneg (Real.exp_pos (z i)).le (sumExp_pos i z).le

theorem softmax_le_one {K : ℕ} (z : Fin K → ℝ) (i : Fin K) : softmax z i ≤ 1 := by
  unfold softmax
  rw [div_le_one (sumExp_pos i z)]
  exact Finset.single_le_sum (fun j _ => (Real.exp_pos (z j)).le) (Finset.mem_univ i)

/-- C7: for every logit vector over at least one class, every softmax entry
lies in the interval from 0 to 1 and the entries sum to 1, hence certainly
to within the tolerance of 1e-5. -/
theorem softmax_prob_simplex :
    ∀ (n : ℕ) (z : Fin (n + 1) → ℝ),
      (∀ i, 0 ≤ softmax z i ∧ softmax z i ≤ 1) ∧
      |(∑ i, softmax z i) - 1| ≤ 1 / 100000 := by
  intro n z
  refine ⟨fun i => ⟨softmax_nonneg z i, softmax_le_one z i⟩, ?_⟩
  have hsum : (∑ i, softmax z i) = 1 := by
    unfold softmax
    rw [← Finset.sum_div]
    exact div_self (sumExp_pos 0 z).ne'
  rw [hsum]
  norm_num

theorem softmax_lt_iff {K : ℕ} (z : Fin K → ℝ) (i j : Fin K) :
    softmax z i < softmax z j ↔ z i < z j := by
  unfold softmax
  rw [div_lt_div_iff_of_pos_right (sumExp_pos i z), Real.exp_lt_exp]

theorem foldl_argmax_congr {m : ℕ} (f g : Fin m → ℝ)
    (h : ∀ i j, f i < f j ↔ g i < g j) :
    ∀ (l : List (Fin m)) (b : Fin m),
      l.foldl (fun a i => if f a < f i then i else a) b =
        l.foldl (fun a i => if g a < g i then i else a) b := by
  intro l
  induction l with
  | nil => intro b; rfl
  | cons x xs ih =>
    intro b
    simp only [List.foldl_cons]
    have hx : (if f b < f x then x else b) = (if g b < g x then x else b) := by
      by_cases hc : f b < f x
      · rw [if_pos hc, if_pos ((h b x).mp hc)]
      · rw [if_neg hc, if_neg fun hc2 => hc ((h b x).mpr hc2)]
    rw [hx]
    exact ih _

theorem argmax_fold_spec {m : ℕ} (v : Fin m → ℝ) :
    ∀ (k t : ℕ) (b : Fin m), m - t = k → b.val < t →
      (∀ j : Fin m, j.val < t → v j ≤ v b) → (∀ j : Fin m, j < b → v j < v b) →
      (∀ j, v j ≤
        v (((List.finRange m).drop t).foldl (fun a i => if v a < v i then i else a) b)) ∧
      (∀ j, j < ((List.finRange m).drop t).foldl (fun a i => if v a < v i then i else a) b →
        v j <
          v (((List.finRange m).drop t).foldl (fun a i => if v a < v i then i else a) b)) := by
  intro k
  induction k with
  | zero =>
    intro t b hk hb hle hlt
    have ht : m ≤ t := Nat.sub_eq_zero_iff_le.mp hk
    have hdrop : (List.finRange m).drop t = [] :=
      List.drop_eq_nil_of_le (by rw [List.length_finRange]; exact ht)
    rw [hdrop]
    exact ⟨fun j => hle j (lt_of_lt_of_le j.isLt ht), hlt⟩
  | succ k ih =>
    intro t b hk hb hle hlt
    have ht : t < m := by omega
    have hdrop : (List.finRange m).drop t = ⟨t, ht⟩ :: (List.finRange m).drop (t + 1) := by
      rw [List.drop_eq_getElem_cons (by rw [List.length_finRange]; exact ht)]
      congr 1
      apply Fin.ext
      simp
    rw [hdrop]
    simp only [List.foldl_cons]
    by_cases hc : v b < v ⟨t, ht⟩
    · rw [if_pos hc]
      refine ih (t + 1) ⟨t, ht⟩ (by omega) (Nat.lt_succ_self t) ?_ ?_
      · intro j hj
        rcases Nat.lt_succ_iff_lt_or_eq.mp hj with hj2 | hj2
        · exact le_of_lt (lt_of_le_of_lt (hle j hj2) hc)
        · have hj3 : j = ⟨t, ht⟩ := Fin.ext hj2
          rw [hj3]
      · intro j hj
        exact lt_of_le_of_lt (hle j (Fin.lt_def.mp hj)) hc
    · rw [if_neg hc]
      refine ih (t + 1) b (by omega) (Nat.lt_succ_of_lt hb) ?_ hlt
      intro j hj
      rcases Nat.lt_succ_iff_lt_or_eq.mp hj with hj2 | hj2
      · exact hle j hj2
      · have hj3 : j = ⟨t, ht⟩ := Fin.ext hj2
        rw [hj3]
        exact not_lt.mp hc

theorem argmaxFin_first_max {n : ℕ} (z : Fin (n + 1) → ℝ) :
    (∀ j, z j ≤ z (argmaxFin z)) ∧ (∀ j, j < argmaxFin z → z j < z (argmaxFin z)) := by
  unfold argmaxFin
  have hlen : 0 < (List.finRange (n + 1)).length := by
    rw [List.length_finRange]; omega
  have h0 : List.finRange (n + 1) =
      (0 : Fin (n + 1)) :: (List.finRange (n + 1)).drop 1 := by
    conv_lhs => rw [← List.drop_zero (List.finRange (n + 1)),
      List.drop_eq_getElem_cons hlen]
    congr 1
    apply Fin.ext
    simp
  conv_lhs => rw [h0]
  conv_rhs => rw [h0]
  simp only [List.foldl_cons, lt_irrefl, if_false]
  refine argmax_fold_spec z n 1 0 (by omega) (by rw [Fin.val_zero]; omega) ?_ ?_
  · intro j hj
    have hj0 : j = 0 := by
      apply Fin.ext
      rw [Fin.val_zero]
      exact Nat.lt_one_iff.mp hj
    rw [hj0]
  · intro j hj
    rw [Fin.lt_def, Fin.val_zero] at hj
    exact absurd hj (Nat.not_lt_zero _)

/-- C3: the predicted label for a sample is the argmax of the softmax of its
logits, which equals the argmax of the raw logits; this index attains the
maximum softmax probability and the maximum logit, and every strictly
smaller index carries a strictly smaller value, so ties go to the lowest
index. -/
theorem pred_label_argmax_spec :
    ∀ (n : ℕ) (z : Fin (n + 1) → ℝ),
      predLabel z = argmaxFin z ∧
      (∀ j, softmax z j ≤ softmax z (predLabel z)) ∧
      (∀ j, j < predLabel z → softmax z j < softmax z (predLabel z)) ∧
      (∀ j, z j ≤ z (predLabel z)) ∧
      (∀ j, j < predLabel z → z j < z (predLabel z)) := by
  intro n z
  have heq : predLabel z = argmaxFin z :=
    foldl_argmax_congr (softmax z) z (fun i j => softmax_lt_iff z i j) _ _
  have hsm := argmaxFin_first_max (softmax z)
  have hz := argmaxFin_first_max z
  refine ⟨heq, ?_, ?_, ?_, ?_⟩
  · exact fun j => hsm.1 j
  · exact fun j hj => hsm.2 j hj
  · rw [heq]; exact hz.1
  · rw [heq]; exact hz.2

theorem affine_step {a b c : ℕ} (l : LinearLayer b c) (W : Matrix (Fin b) (Fin a) ℝ)
    (u : Fin b → ℝ) (x : Fin a → ℝ) :
    l.apply (W.mulVec x + u) = (l.weight * W).mulVec x + (l.weight.mulVec u + l.bias) := by
  unfold LinearLayer.apply
  rw [Matrix.mulVec_add, Matrix.mulVec_mulVec, add_assoc]

/-- C4: with no nonlinearity between the five linear layers, the forward
function of any BlobModel is a single affine map: there are a matrix W and a
bias vector v with forward(x) = W x + v for every input x. -/
theorem forward_eq_single_affine :
    ∀ (a b h : ℕ) (m : BlobModel a b h),
      ∃ (W : Matrix (Fin b) (Fin a) ℝ) (v : Fin b → ℝ),
        ∀ x, m.forward x = W.mulVec x + v := by
  intro a b h m
  refine ⟨m.l5.weight * (m.l4.weight * (m.l3.weight * (m.l2.weight * m.l1.weight))),
    m.l5.weight.mulVec (m.l4.weight.mulVec (m.l3.weight.mulVec
      (m.l2.weight.mulVec m.l1.bias + m.l2.bias) + m.l3.bias) + m.l4.bias) + m.l5.bias,
    ?_⟩
  intro x
  show m.l5.apply (m.l4.apply (m.l3.apply (m.l2.apply (m.l1.apply x)))) = _
  have h1 : m.l1.apply x = m.l1.weight.mulVec x + m.l1.bias := rfl
  rw [h1, affine_step, affine_step, affine_step, affine_step]

theorem trainLoopFrom_fst (grad : Model4Params → Model4Params)
    (Xtr : List (Fin NUM_FEATURES → ℝ)) (ytr : List (Fin NUM_CLASSES))
    (Xte : List (Fin NUM_FEATURES → ℝ)) (yte : List (Fin NUM_CLASSES)) :
    ∀ (n e : ℕ) (p : Model4Params),
      (trainLoopFrom grad Xtr ytr Xte yte e n p).1 =
        (fun q : Model4Params => q.sgdUpdate LEARNING_RATE (grad q))^[n] p := by
  intro n
  induction n with
  | zero => intro e p; rfl
  | succ n ih =>
    intro e p
    rw [Function.iterate_succ_apply]
    show (trainLoopFrom grad Xtr ytr Xte yte e (n + 1) p).1 = _
    simp only [trainLoopFrom]
    split
    · exact ih (e + 1) _
    · exact ih (e + 1) _

theorem trainLoopFrom_epochs (grad : Model4Params → Model4Params)
    (Xtr : List (Fin NUM_FEATURES → ℝ)) (ytr : List (Fin NUM_CLASSES))
    (Xte : List (Fin NUM_FEATURES → ℝ)) (yte : List (Fin NUM_CLASSES)) :
    ∀ (n e : ℕ) (p : Model4Params),
      ((trainLoopFrom grad Xtr ytr Xte yte e n p).2).map Report.epoch =
        (List.range' e n).filter fun x => x % 100 == 0 := by
  intro n
  induction n with
  | zero => intro e p; rfl
  | succ n ih =>
    intro e p
    rw [List.range'_succ, List.filter_cons]
    simp only [trainLoopFrom]
    by_cases hc : e % 100 = 0
    · rw [if_pos hc]
      have hb : (e % 100 == 0) = true := by
        rw [hc]; rfl
      rw [hb]
      simp only [if_true, List.map_cons]
      rw [ih (e + 1) _]
    · rw [if_neg hc]
      have hb : (e % 100 == 0) = false := by
        rw [beq_eq_false_iff_ne]
        exact hc
      rw [hb]
      simp only [Bool.false_eq_true, if_false]
      exact ih (e + 1) _

/-- C2: the training run performs exactly NUM_EPOCHS = 150000 iterations,
each of which replaces the parameters p by p decremented by the learning
rate 0.05 times the gradient of the full-batch cross-entropy loss (the
reverse-mode gradient is the opaque function grad); component by component,
the SGD update subtracts lr times the gradient from every weight matrix and
bias vector of the five layers. -/
theorem training_schedule_and_update :
    ∀ (grad : Model4Params → Model4Params)
      (Xtr : List (Fin NUM_FEATURES → ℝ)) (ytr : List (Fin NUM_CLASSES))
      (Xte : List (Fin NUM_FEATURES → ℝ)) (yte : List (Fin NUM_CLASSES))
      (p0 : Model4Params),
      (trainRun grad Xtr ytr Xte yte p0).1 =
        (fun p : Model4Params => p.sgdUpdate (0.05 : ℝ) (grad p))^[150000] p0 ∧
      (∀ (lr : ℝ) (p g : Model4Params),
        (p.sgdUpdate lr g).l1.weight = p.l1.weight - lr • g.l1.weight ∧
        (p.sgdUpdate lr g).l1.bias = p.l1.bias - lr • g.l1.bias ∧
        (p.sgdUpdate lr g).l2.weight = p.l2.weight - lr • g.l2.weight ∧
        (p.sgdUpdate lr g).l2.bias = p.l2.bias - lr • g.l2.bias ∧
        (p.sgdUpdate lr g).l3.weight = p.l3.weight - lr • g.l3.weight ∧
        (p.sgdUpdate lr g).l3.bias = p.l3.bias - lr • g.l3.bias ∧
        (p.sgdUpdate lr g).l4.weight = p.l4.weight - lr • g.l4.weight ∧
        (p.sgdUpdate lr g).l4.bias = p.l4.bias - lr • g.l4.bias ∧
        (p.sgdUpdate lr g).l5.weight = p.l5.weight - lr • g.l5.weight ∧
        (p.sgdUpdate lr g).l5.bias = p.l5.bias - lr • g.l5.bias) := by
  intro grad Xtr ytr Xte yte p0
  constructor
  · exact trainLoopFrom_fst grad Xtr ytr Xte yte NUM_EPOCHS 0 p0
  · intro lr p g
    exact ⟨rfl, rfl, rfl, rfl, rfl, rfl, rfl, rfl, rfl, rfl⟩

/-- C8: the training run records an evaluation report exactly at the epochs
that are multiples of 100, and the evaluation never mutates the model
parameters: the final parameters do not depend on the test set used by the
evaluation passes. -/
theorem eval_every_100_and_frame :
    ∀ (grad : Model4Params → Model4Params)
      (Xtr : List (Fin NUM_FEATURES → ℝ)) (ytr : List (Fin NUM_CLASSES))
      (Xte : List (Fin NUM_FEATURES → ℝ)) (yte : List (Fin NUM_CLASSES))
      (Xte2 : List (Fin NUM_FEATURES → ℝ)) (yte2 : List (Fin NUM_CLASSES))
      (p0 : Model4Params),
      ((trainRun grad Xtr ytr Xte yte p0).2).map Report.epoch =
        ((List.range NUM_EPOCHS).filter fun e => e % 100 == 0) ∧
      (trainRun grad Xtr ytr Xte yte p0).1 = (trainRun grad Xtr ytr Xte2 yte2 p0).1 := by
  intro grad Xtr ytr Xte yte Xte2 yte2 p0
  constructor
  · rw [List.range_eq_range']
    exact trainLoopFrom_epochs grad Xtr ytr Xte yte NUM_EPOCHS 0 p0
  · rw [show (trainRun grad Xtr ytr Xte yte p0).1 =
        (trainLoopFrom grad Xtr ytr Xte yte 0 NUM_EPOCHS p0).1 from rfl,
      trainLoopFrom_fst, show (trainRun grad Xtr ytr Xte2 yte2 p0).1 =
        (trainLoopFrom grad Xtr ytr Xte2 yte2 0 NUM_EPOCHS p0).1 from rfl,
      trainLoopFrom_fst]

theorem crossEntropyLoss_nonneg {K : ℕ} (logits : List (Fin K → ℝ))
    (targets : List (Fin K)) : 0 ≤ crossEntropyLoss logits targets := by
  unfold crossEntropyLoss
  apply div_nonneg _ (Nat.cast_nonneg _)
  apply List.sum_nonneg
  intro x hx
  rw [List.mem_map] at hx
  obtain ⟨py, hmem, rfl⟩ := hx
  unfold ceTerm
  rw [neg_nonneg]
  exact Real.log_nonpos (softmax_nonneg py.1 py.2) (softmax_le_one py.1 py.2)

theorem trainLoopFrom_testLoss_nonneg (grad : Model4Params → Model4Params)
    (Xtr : List (Fin NUM_FEATURES → ℝ)) (ytr : List (Fin NUM_CLASSES))
    (Xte : List (Fin NUM_FEATURES → ℝ)) (yte : List (Fin NUM_CLASSES)) :
    ∀ (n e : ℕ) (p : Model4Params),
      List.Forall (fun r => 0 ≤ r.testLoss ∧ 0 ≤ r.trainLoss)
        (trainLoopFrom grad Xtr ytr Xte yte e n p).2 := by
  intro n
  induction n with
  | zero => intro e p; exact trivial
  | succ n ih =>
    intro e p
    simp only [trainLoopFrom]
    split
    · rw [List.forall_cons]
      exact ⟨⟨crossEntropyLoss_nonneg _ _, crossEntropyLoss_nonneg _ _⟩, ih (e + 1) _⟩
    · exact ih (e + 1) _

/-- C9: every evaluation report produced during the training run carries a
test loss (and a train loss) that is a non-negative real number; in this
real-valued model every loss value is a real number, so finiteness holds by
construction. -/
theorem reported_losses_nonneg :
    ∀ (grad : Model4Params → Model4Params)
      (Xtr : List (Fin NUM_FEATURES → ℝ)) (ytr : List (Fin NUM_CLASSES))
      (Xte : List (Fin NUM_FEATURES → ℝ)) (yte : List (Fin NUM_CLASSES))
      (p0 : Model4Params),
      List.Forall (fun r => 0 ≤ r.testLoss ∧ 0 ≤ r.trainLoss)
        (trainRun grad Xtr ytr Xte yte p0).2 := by
  intro grad Xtr ytr Xte yte p0
  exact trainLoopFrom_testLoss_nonneg grad Xtr ytr Xte yte NUM_EPOCHS 0 p0

end MultiClass
